import Mathlib

/-!
Shallow embedding of the banking core of `banking_app.py`.

The SQLite tables are modelled as Lean lists kept in rowid/insertion order:
`accounts(account_number, name, balance)` and
`transactions(id AUTOINCREMENT, account_number, transaction_desc, amount, timestamp)`.
Monetary amounts (SQLite `REAL`) are modelled as rationals; timestamps
(`DATETIME DEFAULT CURRENT_TIMESTAMP`) as naturals drawn from a clock field
`now` of the state, so that distinct inserts may share a timestamp exactly as
two inserts within the same wall-clock second do.

`st.error` / `st.warning` messages and the `InsufficientFundsError` exception
messages are the code's only way of reporting failure to the caller; each
distinct message is modelled as a distinct result constructor.
-/

namespace BankingApp

/-- A row of the `accounts` table. -/
structure Account where
  accountNumber : String
  name : String
  balance : ℚ
deriving DecidableEq, Repr

/-- A row of the `transactions` table (the autoincrement `id` is the position
in the list, which is kept in insertion order). -/
structure Txn where
  accountNumber : String
  transactionDesc : String
  amount : ℚ
  timestamp : Nat
deriving DecidableEq, Repr

/-- The persistent state of `bank.db` (the `users` table plays no part in the
claims and is omitted), plus the current clock used for `CURRENT_TIMESTAMP`. -/
structure BankState where
  accounts : List Account
  transactions : List Txn
  now : Nat
deriving DecidableEq, Repr

/-- `account_exists`: `SELECT * FROM accounts WHERE account_number = ?` and
test `fetchone() is not None`. -/
def account_exists (st : BankState) (account_number : String) : Bool :=
  st.accounts.any (fun a => a.accountNumber == account_number)

/-- `Bank.get_account` followed by `load_account_info`: fetch the first row
whose `account_number` matches (the primary key makes it unique in the real
database, but the embedding does not rely on that). -/
def get_account (st : BankState) (account_number : String) : Option Account :=
  st.accounts.find? (fun a => a.accountNumber == account_number)

/-- `UPDATE accounts SET balance = ? WHERE account_number = ?`. -/
def set_balance (st : BankState) (account_number : String) (b : ℚ) : BankState :=
  { st with accounts := (st.accounts.map
      (fun a => if a.accountNumber == account_number then { a with balance := b } else a)) }

/-- `Account.add_transaction`: `INSERT INTO transactions (account_number,
transaction_desc, amount)`, the timestamp filled in by the server clock. -/
def add_transaction (st : BankState) (account_number transaction_desc : String)
    (amount : ℚ) : BankState :=
  { st with transactions :=
      (st.transactions ++ [⟨account_number, transaction_desc, amount, st.now⟩]) }

/-- Outcome of `Bank.create_account`: the `st.warning` for an existing number,
or the `st.success` after the insert (`cursor.rowcount > 0` always holds after
a successful INSERT, so the `st.error` branch is dead). -/
inductive CreateResult where
  | alreadyExists
  | created
deriving DecidableEq, Repr

/-- `Bank.create_account(name, account_number, initial_balance=0)`. -/
def create_account (st : BankState) (name account_number : String)
    (initial_balance : ℚ) : BankState × CreateResult :=
  if account_exists st account_number then
    (st, .alreadyExists)
  else
    ({ st with accounts := st.accounts ++ [⟨account_number, name, initial_balance⟩] },
     .created)

/-- `Account.deposit`: updates the balance when `amount > 0`, otherwise shows
"Invalid deposit amount" and leaves the database alone.  Returns the new state
and whether the update happened. -/
def Account.deposit (st : BankState) (acct : Account) (amount : ℚ) :
    BankState × Bool :=
  if 0 < amount then
    (set_balance st acct.accountNumber (acct.balance + amount), true)
  else
    (st, false)

/-- Outcome of `Bank.deposit`: the `st.error` for a missing account, the
normal path, or `Account.deposit`'s "Invalid deposit amount" warning. -/
inductive DepositResult where
  | accountNotFound
  | deposited
  | invalidAmount
deriving DecidableEq, Repr

/-- `Bank.deposit`: fetch the account, call `Account.deposit`, then call
`Account.add_transaction("Deposited", amount)` unconditionally — the source
appends the transaction row even when `Account.deposit` rejected the amount. -/
def Bank.deposit (st : BankState) (account_number : String) (amount : ℚ) :
    BankState × DepositResult :=
  match get_account st account_number with
  | none => (st, .accountNotFound)
  | some acct =>
    let r := Account.deposit st acct amount
    (add_transaction r.1 account_number "Deposited" amount,
     if r.2 then .deposited else .invalidAmount)

/-- The two messages `Account.withdraw` can put into the raised
`InsufficientFundsError`: "Insufficient funds" when `amount > 0`, otherwise
"Invalid withdrawal amount". -/
inductive WithdrawError where
  | insufficientFunds
  | invalidAmount
deriving DecidableEq, Repr

/-- `Account.withdraw`: mutates the balance when `amount <= balance and
amount > 0`, otherwise raises `InsufficientFundsError` with the message chosen
by `amount > 0`. -/
def Account.withdraw (st : BankState) (acct : Account) (amount : ℚ) :
    Except WithdrawError BankState :=
  if amount ≤ acct.balance ∧ 0 < amount then
    .ok (set_balance st acct.accountNumber (acct.balance - amount))
  else
    .error (if 0 < amount then .insufficientFunds else .invalidAmount)

/-- Outcome of `Bank.withdraw`: the `st.error` for a missing account, the
success message, or the caught exception's message. -/
inductive WithdrawResult where
  | accountNotFound
  | withdrawn
  | insufficientFunds
  | invalidAmount
deriving DecidableEq, Repr

/-- `Bank.withdraw`: fetch the account, try `Account.withdraw`; on success add
the "Withdrawn" transaction, on `InsufficientFundsError` report the message
and leave the state as it was. -/
def Bank.withdraw (st : BankState) (account_number : String) (amount : ℚ) :
    BankState × WithdrawResult :=
  match get_account st account_number with
  | none => (st, .accountNotFound)
  | some acct =>
    match Account.withdraw st acct amount with
    | .ok st1 => (add_transaction st1 account_number "Withdrawn" amount, .withdrawn)
    | .error .insufficientFunds => (st, .insufficientFunds)
    | .error .invalidAmount => (st, .invalidAmount)

/-- `Bank.balance_enquiry`: `(account.balance_enquiry(), account._name)` when
the account is found, the "Account not found" warning (a `None` return)
otherwise. -/
def Bank.balance_enquiry (st : BankState) (account_number : String) :
    Option (ℚ × String) :=
  (get_account st account_number).map (fun a => (a.balance, a.name))

/-- One step of the stable descending insertion sort used to model both the
`ORDER BY timestamp DESC` clauses and the Python `list.sort(key=lambda x:
x[2], reverse=True)` call: an element is placed before the first element with
a strictly smaller timestamp, so elements with equal timestamps keep their
relative order. -/
def insertTsDesc (t : Txn) : List Txn → List Txn
  | [] => [t]
  | u :: us =>
    if u.timestamp ≤ t.timestamp then t :: u :: us
    else u :: insertTsDesc t us

/-- Stable sort by timestamp descending (SQLite returns equal-key rows in
rowid order here, and Python's sort is documented stable, with `reverse=True`
not disturbing the order of equal keys). -/
def sortTsDesc (l : List Txn) : List Txn :=
  l.foldr insertTsDesc []

/-- Outcome of `Bank.transaction_details` when no row list is returned: the
`st.error` for a missing account, or the `st.warning` "No transactions found
for this account." (the Python function returns `None` in both cases; the
message distinguishes them). -/
inductive HistError where
  | accountNotFound
  | noTransactionsFound
deriving DecidableEq, Repr

/-- `Bank.transaction_details`: fetch the "Deposited" rows ordered by
timestamp descending, then the "Withdrawn" rows likewise, concatenate
deposits-then-withdrawals, and stable-sort the concatenation by timestamp
descending; an empty result is reported as a warning, not returned. -/
def Bank.transaction_details (st : BankState) (account_number : String) :
    Except HistError (List Txn) :=
  if ¬ account_exists st account_number then
    .error .accountNotFound
  else
    let deposit_transactions := sortTsDesc (st.transactions.filter
      (fun t => t.accountNumber == account_number && t.transactionDesc == "Deposited"))
    let withdrawal_transactions := sortTsDesc (st.transactions.filter
      (fun t => t.accountNumber == account_number && t.transactionDesc == "Withdrawn"))
    let transactions := sortTsDesc (deposit_transactions ++ withdrawal_transactions)
    if transactions ≠ [] then .ok transactions else .error .noTransactionsFound

/-- The history the spec's words describe for the tie-break question: all of
the account's transactions sorted by timestamp descending with a stable sort
over the insertion (rowid) order, so equal timestamps preserve insertion
order.  Used only to compare against `Bank.transaction_details`. -/
def historyInsertionStable (st : BankState) (account_number : String) : List Txn :=
  sortTsDesc (st.transactions.filter (fun t => t.accountNumber == account_number))

/-- One presentation-layer call on a fixed account: a deposit or a withdrawal
of the given amount. -/
inductive Op where
  | dep (amount : ℚ)
  | wd (amount : ℚ)
deriving DecidableEq, Repr

/-- Run a sequence of deposit/withdraw calls on one account, left to right. -/
def runOps (st : BankState) (account_number : String) : List Op → BankState
  | [] => st
  | .dep a :: ops => runOps (Bank.deposit st account_number a).1 account_number ops
  | .wd a :: ops => runOps (Bank.withdraw st account_number a).1 account_number ops

/-- Sum of the amounts of the deposits in the sequence that succeed (result
`deposited`) when run from `st`. -/
def sumSuccessfulDeposits (st : BankState) (account_number : String) : List Op → ℚ
  | [] => 0
  | .dep a :: ops =>
    (if (Bank.deposit st account_number a).2 = .deposited then a else 0) +
      sumSuccessfulDeposits (Bank.deposit st account_number a).1 account_number ops
  | .wd a :: ops =>
    sumSuccessfulDeposits (Bank.withdraw st account_number a).1 account_number ops

/-- Sum of the amounts of the withdrawals in the sequence that succeed (result
`withdrawn`) when run from `st`. -/
def sumSuccessfulWithdrawals (st : BankState) (account_number : String) : List Op → ℚ
  | [] => 0
  | .dep a :: ops =>
    sumSuccessfulWithdrawals (Bank.deposit st account_number a).1 account_number ops
  | .wd a :: ops =>
    (if (Bank.withdraw st account_number a).2 = .withdrawn then a else 0) +
      sumSuccessfulWithdrawals (Bank.withdraw st account_number a).1 account_number ops

/-- Every stored balance is non-negative: the spec's post-commit invariant. -/
def NonNegBalances (st : BankState) : Prop :=
  ∀ a ∈ st.accounts, 0 ≤ a.balance

/-! ### Supporting lemmas -/

lemma find?_map_set_balance (an : String) (b : ℚ) :
    ∀ l : List Account,
      (l.map (fun a => if a.accountNumber == an then { a with balance := b } else a)).find?
          (fun a => a.accountNumber == an) =
        (l.find? (fun a => a.accountNumber == an)).map (fun a => { a with balance := b }) := by
  intro l
  induction l with
  | nil => rfl
  | cons a l ih =>
    by_cases h : a.accountNumber = an
    · simp [List.find?, h]
    · have hb : (a.accountNumber == an) = false := by simp [h]
      simp only [List.map, List.find?, hb, if_neg, Bool.false_eq_true, ite_false]
      simpa [hb] using ih

lemma get_account_set_balance (st : BankState) (an : String) (b : ℚ) :
    get_account (set_balance st an b) an =
      (get_account st an).map (fun a => { a with balance := b }) := by
  unfold get_account set_balance
  exact find?_map_set_balance an b st.accounts

lemma get_account_add_transaction (st : BankState) (an d : String) (amt : ℚ) (a2 : String) :
    get_account (add_transaction st an d amt) a2 = get_account st a2 := rfl

lemma account_exists_eq_isSome (st : BankState) (an : String) :
    account_exists st an = (get_account st an).isSome := by
  unfold account_exists get_account
  induction st.accounts with
  | nil => rfl
  | cons a l ih =>
    by_cases h : a.accountNumber = an
    · simp [List.any, List.find?, h]
    · have hb : (a.accountNumber == an) = false := by simp [h]
      simpa [List.any, List.find?, hb] using ih

lemma get_account_number (st : BankState) (an : String) (acct : Account)
    (h : get_account st an = some acct) : acct.accountNumber = an := by
  have := List.find?_some h
  simpa using this

/-! ### The claims -/

/-- C1: for every existing account and every amount > 0, `Bank.deposit`
followed by `Bank.balance_enquiry` returns the old balance plus the amount,
and exactly one new transaction row, with description "Deposited" and that
amount, is appended for that account. -/
theorem deposit_adds_balance_and_logs_once (st : BankState) (an : String)
    (amount : ℚ) (acct : Account) (hacct : get_account st an = some acct)
    (hamt : 0 < amount) :
    (Bank.deposit st an amount).2 = .deposited ∧
    Bank.balance_enquiry (Bank.deposit st an amount).1 an =
      some (acct.balance + amount, acct.name) ∧
    (Bank.deposit st an amount).1.transactions =
      st.transactions ++ [⟨an, "Deposited", amount, st.now⟩] := by
  unfold Bank.deposit
  rw [hacct]
  simp only [Account.deposit, if_pos hamt]
  refine ⟨rfl, ?_, rfl⟩
  unfold Bank.balance_enquiry
  rw [get_account_add_transaction, get_account_number st an acct hacct,
    get_account_set_balance, hacct]
  rfl

/-- Witness for C1 at a concrete state. -/
theorem deposit_adds_balance_and_logs_once_witness :
    (Bank.deposit ⟨[⟨"A1", "Alice", 100⟩], [], 3⟩ "A1" 50).2 = .deposited ∧
    Bank.balance_enquiry (Bank.deposit ⟨[⟨"A1", "Alice", 100⟩], [], 3⟩ "A1" 50).1 "A1" =
      some (100 + 50, "Alice") ∧
    (Bank.deposit ⟨[⟨"A1", "Alice", 100⟩], [], 3⟩ "A1" 50).1.transactions =
      [] ++ [⟨"A1", "Deposited", 50, 3⟩] :=
  deposit_adds_balance_and_logs_once ⟨[⟨"A1", "Alice", 100⟩], [], 3⟩ "A1" 50
    ⟨"A1", "Alice", 100⟩ rfl (by norm_num)

/-- C2 counterexample: the code lets an account with a negative balance be
created, and withdrawing a non-positive amount that still exceeds that balance
reports "Invalid withdrawal amount", not "Insufficient funds", so the claim's
`amount > balance → InsufficientFunds` clause fails as stated. -/
theorem withdraw_over_negative_balance_not_insufficient :
    ((-5 : ℚ) < -1) ∧
    (Bank.withdraw ⟨[⟨"A", "Alice", -5⟩], [], 0⟩ "A" (-1)).2 = .invalidAmount ∧
    (Bank.withdraw ⟨[⟨"A", "Alice", -5⟩], [], 0⟩ "A" (-1)).2 ≠ .insufficientFunds := by
  refine ⟨by norm_num, rfl, ?_⟩
  intro h
  exact WithdrawResult.noConfusion h

/-- C2 (amended): for every existing account, if `0 < amount ≤ balance` then
`Bank.withdraw` succeeds, the new balance is the old balance minus the amount,
and one "Withdrawn" transaction with that amount is appended; if
`amount > balance` **and `amount > 0`** the call fails with InsufficientFunds
and the state is unchanged (a non-positive amount fails with InvalidAmount
instead). -/
theorem withdraw_correct_amended (st : BankState) (an : String) (amount : ℚ)
    (acct : Account) (hacct : get_account st an = some acct) :
    (0 < amount → amount ≤ acct.balance →
      (Bank.withdraw st an amount).2 = .withdrawn ∧
      Bank.balance_enquiry (Bank.withdraw st an amount).1 an =
        some (acct.balance - amount, acct.name) ∧
      (Bank.withdraw st an amount).1.transactions =
        st.transactions ++ [⟨an, "Withdrawn", amount, st.now⟩]) ∧
    (acct.balance < amount → 0 < amount →
      Bank.withdraw st an amount = (st, .insufficientFunds)) := by
  constructor
  · intro h0 hle
    have hcond : amount ≤ acct.balance ∧ 0 < amount := ⟨hle, h0⟩
    refine ⟨?_, ?_, ?_⟩
    · simp only [Bank.withdraw, Account.withdraw, hacct, if_pos hcond]
    · simp only [Bank.withdraw, Account.withdraw, hacct, if_pos hcond,
        Bank.balance_enquiry]
      rw [get_account_add_transaction, get_account_number st an acct hacct,
        get_account_set_balance, hacct]
      rfl
    · simp only [Bank.withdraw, Account.withdraw, hacct, if_pos hcond,
        add_transaction, set_balance]
  · intro hlt h0
    have hcond : ¬(amount ≤ acct.balance ∧ 0 < amount) := by
      rintro ⟨hle, -⟩
      exact absurd hlt (not_lt.mpr hle)
    simp only [Bank.withdraw, Account.withdraw, hacct, if_neg hcond, if_pos h0]

/-- Witness for C2's amended theorem: both branches at concrete inputs. -/
theorem withdraw_correct_amended_witness :
    ((Bank.withdraw ⟨[⟨"A1", "Alice", 100⟩], [], 7⟩ "A1" 30).2 = .withdrawn ∧
     (Bank.withdraw ⟨[⟨"A1", "Alice", 100⟩], [], 7⟩ "A1" 30).1.transactions =
       [] ++ [⟨"A1", "Withdrawn", 30, 7⟩]) ∧
    Bank.withdraw ⟨[⟨"A1", "Alice", 100⟩], [], 7⟩ "A1" 200 =
      (⟨[⟨"A1", "Alice", 100⟩], [], 7⟩, .insufficientFunds) := by
  have h1 := (withdraw_correct_amended ⟨[⟨"A1", "Alice", 100⟩], [], 7⟩ "A1" 30
    ⟨"A1", "Alice", 100⟩ rfl).1 (by norm_num) (by norm_num)
  have h2 := (withdraw_correct_amended ⟨[⟨"A1", "Alice", 100⟩], [], 7⟩ "A1" 200
    ⟨"A1", "Alice", 100⟩ rfl).2 (by norm_num) (by norm_num)
  exact ⟨⟨h1.1, h1.2.2⟩, h2⟩

/-- C8 counterexample: for a (creatable) negative balance, a non-positive
amount exceeding the balance is reported as InvalidAmount, not
InsufficientFunds, so the claim's `amount > balance → InsufficientFunds`
clause fails as stated. -/
theorem withdraw_error_kind_overlap :
    ((-10 : ℚ) < -2) ∧
    (Bank.withdraw ⟨[⟨"B", "Bob", -10⟩], [], 0⟩ "B" (-2)).2 = .invalidAmount ∧
    (Bank.withdraw ⟨[⟨"B", "Bob", -10⟩], [], 0⟩ "B" (-2)).2 ≠ .insufficientFunds := by
  refine ⟨by norm_num, rfl, ?_⟩
  intro h
  exact WithdrawResult.noConfusion h

/-- C8 (amended): `Bank.withdraw` reports three distinct error kinds:
AccountNotFound when the account is absent, InsufficientFunds when
`amount > balance` **and `amount > 0`**, and InvalidAmount when
`amount ≤ 0`. -/
theorem withdraw_error_kinds (st : BankState) (an : String) (amount : ℚ) :
    (get_account st an = none → Bank.withdraw st an amount = (st, .accountNotFound)) ∧
    (∀ acct, get_account st an = some acct → acct.balance < amount → 0 < amount →
      Bank.withdraw st an amount = (st, .insufficientFunds)) ∧
    (∀ acct, get_account st an = some acct → amount ≤ 0 →
      Bank.withdraw st an amount = (st, .invalidAmount)) := by
  refine ⟨?_, ?_, ?_⟩
  · intro h
    simp only [Bank.withdraw, h]
  · intro acct hacct hlt h0
    have hcond : ¬(amount ≤ acct.balance ∧ 0 < amount) := by
      rintro ⟨hle, -⟩
      exact absurd hlt (not_lt.mpr hle)
    simp only [Bank.withdraw, Account.withdraw, hacct, if_neg hcond, if_pos h0]
  · intro acct hacct h0
    have hcond : ¬(amount ≤ acct.balance ∧ 0 < amount) := by
      rintro ⟨-, hpos⟩
      exact absurd hpos (not_lt.mpr h0)
    simp only [Bank.withdraw, Account.withdraw, hacct, if_neg hcond,
      if_neg (not_lt.mpr h0)]

/-- Witness for C8's amended theorem: all three error kinds at concrete
inputs. -/
theorem withdraw_error_kinds_witness :
    Bank.withdraw ⟨[], [], 0⟩ "Z" 5 = (⟨[], [], 0⟩, .accountNotFound) ∧
    Bank.withdraw ⟨[⟨"A1", "Alice", 100⟩], [], 7⟩ "A1" 200 =
      (⟨[⟨"A1", "Alice", 100⟩], [], 7⟩, .insufficientFunds) ∧
    Bank.withdraw ⟨[⟨"A1", "Alice", 100⟩], [], 7⟩ "A1" 0 =
      (⟨[⟨"A1", "Alice", 100⟩], [], 7⟩, .invalidAmount) := by
  refine ⟨(withdraw_error_kinds ⟨[], [], 0⟩ "Z" 5).1 rfl, ?_, ?_⟩
  · exact (withdraw_error_kinds ⟨[⟨"A1", "Alice", 100⟩], [], 7⟩ "A1" 200).2.1
      ⟨"A1", "Alice", 100⟩ rfl (by norm_num) (by norm_num)
  · exact (withdraw_error_kinds ⟨[⟨"A1", "Alice", 100⟩], [], 7⟩ "A1" 0).2.2
      ⟨"A1", "Alice", 100⟩ rfl le_rfl

lemma get_account_none (st : BankState) (an : String)
    (h : account_exists st an = false) : get_account st an = none := by
  cases hg : get_account st an with
  | none => rfl
  | some a =>
    have hs := account_exists_eq_isSome st an
    rw [h, hg] at hs
    exact absurd hs (by simp)

lemma create_account_exists (st : BankState) (name an : String) (b : ℚ)
    (h : account_exists st an = true) :
    create_account st name an b = (st, .alreadyExists) := by
  simp only [create_account, h, if_true]

lemma get_account_create_fresh (st : BankState) (name an : String) (b : ℚ)
    (h : account_exists st an = false) :
    get_account (create_account st name an b).1 an = some ⟨an, name, b⟩ := by
  simp only [create_account, h, Bool.false_eq_true, if_false]
  unfold get_account
  have hnone : st.accounts.find? (fun a => a.accountNumber == an) = none :=
    get_account_none st an h
  rw [List.find?_append, hnone]
  simp [List.find?]

lemma account_exists_after_create (st : BankState) (name an : String) (b : ℚ)
    (h : account_exists st an = false) :
    account_exists (create_account st name an b).1 an = true := by
  rw [account_exists_eq_isSome, get_account_create_fresh st name an b h]
  rfl

/-- C10: for every fresh account number and every initial balance value,
negative ones included, `Bank.create_account` succeeds and stores exactly that
value: no non-negativity check exists in the code. -/
theorem create_account_accepts_negative_balance (st : BankState)
    (name an : String) (b : ℚ) (hfresh : account_exists st an = false) :
    (create_account st name an b).2 = .created ∧
    Bank.balance_enquiry (create_account st name an b).1 an = some (b, name) := by
  refine ⟨?_, ?_⟩
  · simp only [create_account, hfresh, Bool.false_eq_true, if_false]
  · unfold Bank.balance_enquiry
    rw [get_account_create_fresh st name an b hfresh]
    rfl

/-- Witness for C10 at a concrete negative initial balance. -/
theorem create_account_accepts_negative_balance_witness :
    (create_account ⟨[], [], 0⟩ "Mallory" "N1" (-50)).2 = .created ∧
    Bank.balance_enquiry (create_account ⟨[], [], 0⟩ "Mallory" "N1" (-50)).1 "N1" =
      some (-50, "Mallory") :=
  create_account_accepts_negative_balance ⟨[], [], 0⟩ "Mallory" "N1" (-50) rfl

/-- C9: creating an account and then calling `create_account` again with the
same account number leaves the first account's balance untouched, and the
second call fails with AlreadyExists. -/
theorem create_account_idempotent_rejecting (st : BankState)
    (name an : String) (b : ℚ) (name2 : String) (b2 : ℚ)
    (hfresh : account_exists st an = false) :
    (create_account st name an b).2 = .created ∧
    create_account (create_account st name an b).1 name2 an b2 =
      ((create_account st name an b).1, .alreadyExists) ∧
    Bank.balance_enquiry
      (create_account (create_account st name an b).1 name2 an b2).1 an =
      some (b, name) := by
  have hex := account_exists_after_create st name an b hfresh
  have h2 := create_account_exists (create_account st name an b).1 name2 an b2 hex
  refine ⟨?_, h2, ?_⟩
  · simp only [create_account, hfresh, Bool.false_eq_true, if_false]
  · rw [h2]
    unfold Bank.balance_enquiry
    rw [get_account_create_fresh st name an b hfresh]
    rfl

/-- Witness for C9 at a concrete double creation. -/
theorem create_account_idempotent_rejecting_witness :
    (create_account ⟨[], [], 0⟩ "Alice" "A1" 100).2 = .created ∧
    create_account (create_account ⟨[], [], 0⟩ "Alice" "A1" 100).1 "Eve" "A1" 7 =
      ((create_account ⟨[], [], 0⟩ "Alice" "A1" 100).1, .alreadyExists) ∧
    Bank.balance_enquiry
      (create_account (create_account ⟨[], [], 0⟩ "Alice" "A1" 100).1 "Eve" "A1" 7).1
      "A1" = some (100, "Alice") :=
  create_account_idempotent_rejecting ⟨[], [], 0⟩ "Alice" "A1" 100 "Eve" 7 rfl

lemma nonneg_set_balance (st : BankState) (an : String) (b : ℚ)
    (hnn : NonNegBalances st) (hb : 0 ≤ b) :
    NonNegBalances (set_balance st an b) := by
  intro a ha
  simp only [set_balance] at ha
  rcases List.mem_map.mp ha with ⟨x, hx, rfl⟩
  split
  · exact hb
  · exact hnn x hx

lemma nonneg_add_transaction (st : BankState) (an d : String) (amt : ℚ) :
    NonNegBalances (add_transaction st an d amt) ↔ NonNegBalances st := Iff.rfl

/-- C3: every stored balance stays non-negative: `create_account` with a
non-negative initial balance, `Bank.deposit`, and `Bank.withdraw` each
preserve non-negativity of every account's balance. -/
theorem operations_preserve_nonneg_balances (st : BankState)
    (hnn : NonNegBalances st) :
    (∀ name an b, 0 ≤ b → NonNegBalances (create_account st name an b).1) ∧
    (∀ an amount, NonNegBalances (Bank.deposit st an amount).1) ∧
    (∀ an amount, NonNegBalances (Bank.withdraw st an amount).1) := by
  refine ⟨?_, ?_, ?_⟩
  · intro name an b hb
    by_cases hex : account_exists st an
    · rw [create_account_exists st name an b hex]
      exact hnn
    · simp only [create_account, eq_false_of_ne_true hex, Bool.false_eq_true, if_false]
      intro a ha
      rcases List.mem_append.mp ha with h | h
      · exact hnn a h
      · rcases List.mem_singleton.mp h with rfl
        exact hb
  · intro an amount
    cases hacct : get_account st an with
    | none => simpa only [Bank.deposit, hacct] using hnn
    | some acct =>
      have hmem := List.mem_of_find?_eq_some hacct
      by_cases hpos : 0 < amount
      · simp only [Bank.deposit, Account.deposit, hacct, if_pos hpos]
        rw [nonneg_add_transaction]
        exact nonneg_set_balance st acct.accountNumber (acct.balance + amount) hnn
          (add_nonneg (hnn acct hmem) (le_of_lt hpos))
      · simp only [Bank.deposit, Account.deposit, hacct, if_neg hpos]
        rw [nonneg_add_transaction]
        exact hnn
  · intro an amount
    cases hacct : get_account st an with
    | none => simpa only [Bank.withdraw, hacct] using hnn
    | some acct =>
      have hmem := List.mem_of_find?_eq_some hacct
      by_cases hcond : amount ≤ acct.balance ∧ 0 < amount
      · simp only [Bank.withdraw, Account.withdraw, hacct, if_pos hcond]
        rw [nonneg_add_transaction]
        exact nonneg_set_balance st acct.accountNumber (acct.balance - amount) hnn
          (sub_nonneg.mpr hcond.1)
      · by_cases h0 : 0 < amount
        · simpa only [Bank.withdraw, Account.withdraw, hacct, if_neg hcond,
            if_pos h0] using hnn
        · simpa only [Bank.withdraw, Account.withdraw, hacct, if_neg hcond,
            if_neg h0] using hnn

/-- Witness for C3 at a concrete state, one conjunct per operation. -/
theorem operations_preserve_nonneg_balances_witness :
    NonNegBalances (create_account ⟨[⟨"A", "Alice", 3⟩], [], 0⟩ "Bob" "B" 2).1 ∧
    NonNegBalances (Bank.deposit ⟨[⟨"A", "Alice", 3⟩], [], 0⟩ "A" 7).1 ∧
    NonNegBalances (Bank.withdraw ⟨[⟨"A", "Alice", 3⟩], [], 0⟩ "A" 2).1 := by
  have hnn : NonNegBalances ⟨[⟨"A", "Alice", 3⟩], [], 0⟩ := by
    intro a ha
    rcases List.mem_singleton.mp ha with rfl
    norm_num
  have h := operations_preserve_nonneg_balances ⟨[⟨"A", "Alice", 3⟩], [], 0⟩ hnn
  exact ⟨h.1 "Bob" "B" 2 (by norm_num), h.2.1 "A" 7, h.2.2 "A" 2⟩

/-- C4: the code violates the claim at exactly one place: `Bank.deposit`
calls `add_transaction("Deposited", amount)` even after `Account.deposit`
rejected a non-positive amount, so a failed deposit appends a "Deposited"
transaction row with a non-positive amount while changing no balance.  The
theorem evaluates the code at the failing input. -/
theorem invalid_deposit_appends_transaction :
    (Bank.deposit ⟨[⟨"A", "Alice", 100⟩], [], 4⟩ "A" 0).2 = .invalidAmount ∧
    Bank.balance_enquiry (Bank.deposit ⟨[⟨"A", "Alice", 100⟩], [], 4⟩ "A" 0).1 "A" =
      some (100, "Alice") ∧
    (Bank.deposit ⟨[⟨"A", "Alice", 100⟩], [], 4⟩ "A" 0).1.transactions =
      [⟨"A", "Deposited", 0, 4⟩] :=
  ⟨rfl, rfl, rfl⟩

lemma get_account_set_balance' (st : BankState) (an2 an : String) (b : ℚ)
    (h : an2 = an) :
    get_account (set_balance st an2 b) an =
      (get_account st an).map (fun a => { a with balance := b }) := by
  subst h
  exact get_account_set_balance st an2 b

lemma deposit_get_account (st : BankState) (an : String) (amount : ℚ)
    (acct : Account) (hacct : get_account st an = some acct) :
    get_account (Bank.deposit st an amount).1 an =
      some ⟨acct.accountNumber, acct.name,
        acct.balance + (if 0 < amount then amount else 0)⟩ := by
  by_cases hpos : 0 < amount
  · simp only [Bank.deposit, Account.deposit, hacct, if_pos hpos]
    rw [get_account_add_transaction,
      get_account_set_balance' st acct.accountNumber an _
        (get_account_number st an acct hacct), hacct]
    simp [hpos]
  · simp only [Bank.deposit, Account.deposit, hacct, if_neg hpos]
    rw [get_account_add_transaction, hacct]
    simp [hpos]

lemma deposit_snd (st : BankState) (an : String) (amount : ℚ)
    (acct : Account) (hacct : get_account st an = some acct) :
    (Bank.deposit st an amount).2 =
      if 0 < amount then .deposited else .invalidAmount := by
  by_cases hpos : 0 < amount
  · simp [Bank.deposit, Account.deposit, hacct, hpos]
  · simp [Bank.deposit, Account.deposit, hacct, hpos]

lemma withdraw_get_account (st : BankState) (an : String) (amount : ℚ)
    (acct : Account) (hacct : get_account st an = some acct) :
    get_account (Bank.withdraw st an amount).1 an =
      some ⟨acct.accountNumber, acct.name,
        acct.balance -
          (if amount ≤ acct.balance ∧ 0 < amount then amount else 0)⟩ := by
  by_cases hcond : amount ≤ acct.balance ∧ 0 < amount
  · simp only [Bank.withdraw, Account.withdraw, hacct, if_pos hcond]
    rw [get_account_add_transaction,
      get_account_set_balance' st acct.accountNumber an _
        (get_account_number st an acct hacct), hacct]
    simp [hcond]
  · by_cases h0 : 0 < amount
    · simp only [Bank.withdraw, Account.withdraw, hacct, if_neg hcond, if_pos h0]
      simp
    · simp only [Bank.withdraw, Account.withdraw, hacct, if_neg hcond, if_neg h0]
      simp

lemma withdraw_snd (st : BankState) (an : String) (amount : ℚ)
    (acct : Account) (hacct : get_account st an = some acct) :
    (Bank.withdraw st an amount).2 =
      if amount ≤ acct.balance ∧ 0 < amount then .withdrawn
      else if 0 < amount then .insufficientFunds else .invalidAmount := by
  by_cases hcond : amount ≤ acct.balance ∧ 0 < amount
  · simp only [Bank.withdraw, Account.withdraw, hacct, if_pos hcond]
  · by_cases h0 : 0 < amount
    · simp only [Bank.withdraw, Account.withdraw, hacct, if_neg hcond, if_pos h0]
    · simp only [Bank.withdraw, Account.withdraw, hacct, if_neg hcond, if_neg h0]

/-- C5: for every initial state in which the account exists and every
sequence of deposit and withdraw calls on it, the final balance equals the
initial balance plus the sum of the amounts of the successful deposits minus
the sum of the amounts of the successful withdrawals. -/
theorem final_balance_eq_initial_plus_net (an : String) (ops : List Op) :
    ∀ (st : BankState) (acct : Account), get_account st an = some acct →
      Bank.balance_enquiry (runOps st an ops) an =
        some (acct.balance + sumSuccessfulDeposits st an ops
          - sumSuccessfulWithdrawals st an ops, acct.name) := by
  induction ops with
  | nil =>
    intro st acct hacct
    simp [runOps, sumSuccessfulDeposits, sumSuccessfulWithdrawals,
      Bank.balance_enquiry, hacct]
  | cons op ops ih =>
    intro st acct hacct
    cases op with
    | dep a =>
      have hget := deposit_get_account st an a acct hacct
      have hsnd := deposit_snd st an a acct hacct
      by_cases hpos : 0 < a
      · rw [if_pos hpos] at hget hsnd
        have hrec := ih (Bank.deposit st an a).1 _ hget
        rw [runOps, hrec, sumSuccessfulDeposits, sumSuccessfulWithdrawals,
          if_pos hsnd]
        simp only [Option.some.injEq, Prod.mk.injEq]
        exact ⟨by ring, trivial⟩
      · rw [if_neg hpos] at hget hsnd
        have hne : (Bank.deposit st an a).2 ≠ DepositResult.deposited := by
          rw [hsnd]
          exact fun h => DepositResult.noConfusion h
        have hrec := ih (Bank.deposit st an a).1 _ hget
        rw [runOps, hrec, sumSuccessfulDeposits, sumSuccessfulWithdrawals,
          if_neg hne]
        simp only [Option.some.injEq, Prod.mk.injEq]
        exact ⟨by ring, trivial⟩
    | wd a =>
      have hget := withdraw_get_account st an a acct hacct
      have hsnd := withdraw_snd st an a acct hacct
      by_cases hcond : a ≤ acct.balance ∧ 0 < a
      · rw [if_pos hcond] at hget hsnd
        have hrec := ih (Bank.withdraw st an a).1 _ hget
        rw [runOps, hrec, sumSuccessfulDeposits, sumSuccessfulWithdrawals,
          if_pos hsnd]
        simp only [Option.some.injEq, Prod.mk.injEq]
        exact ⟨by ring, trivial⟩
      · rw [if_neg hcond] at hget hsnd
        have hne : (Bank.withdraw st an a).2 ≠ WithdrawResult.withdrawn := by
          rw [hsnd]
          by_cases h0 : 0 < a
          · rw [if_pos h0]
            exact fun h => WithdrawResult.noConfusion h
          · rw [if_neg h0]
            exact fun h => WithdrawResult.noConfusion h
        have hrec := ih (Bank.withdraw st an a).1 _ hget
        rw [runOps, hrec, sumSuccessfulDeposits, sumSuccessfulWithdrawals,
          if_neg hne]
        simp only [Option.some.injEq, Prod.mk.injEq]
        exact ⟨by ring, trivial⟩

/-- Witness for C5: the spec's own scenario, deposit 50 then withdraw 30 then
a failing withdraw 200 from balance 100. -/
theorem final_balance_eq_initial_plus_net_witness :
    Bank.balance_enquiry
      (runOps ⟨[⟨"A1", "Alice", 100⟩], [], 0⟩ "A1" [.dep 50, .wd 30, .wd 200]) "A1" =
      some (100 + sumSuccessfulDeposits ⟨[⟨"A1", "Alice", 100⟩], [], 0⟩ "A1"
          [.dep 50, .wd 30, .wd 200]
        - sumSuccessfulWithdrawals ⟨[⟨"A1", "Alice", 100⟩], [], 0⟩ "A1"
          [.dep 50, .wd 30, .wd 200], "Alice") :=
  final_balance_eq_initial_plus_net "A1" [.dep 50, .wd 30, .wd 200]
    ⟨[⟨"A1", "Alice", 100⟩], [], 0⟩ ⟨"A1", "Alice", 100⟩ rfl

lemma mem_insertTsDesc (t : Txn) (l : List Txn) (z : Txn) :
    z ∈ insertTsDesc t l ↔ z = t ∨ z ∈ l := by
  induction l with
  | nil => simp [insertTsDesc]
  | cons u us ih =>
    by_cases h : u.timestamp ≤ t.timestamp
    · rw [insertTsDesc, if_pos h]
      simp only [List.mem_cons]
    · rw [insertTsDesc, if_neg h]
      simp only [List.mem_cons, ih]
      tauto

lemma insertTsDesc_perm (t : Txn) (l : List Txn) :
    (insertTsDesc t l).Perm (t :: l) := by
  induction l with
  | nil => exact List.Perm.refl _
  | cons u us ih =>
    by_cases h : u.timestamp ≤ t.timestamp
    · rw [insertTsDesc, if_pos h]
    · rw [insertTsDesc, if_neg h]
      exact (ih.cons u).trans (List.Perm.swap t u us)

lemma sortTsDesc_perm (l : List Txn) : (sortTsDesc l).Perm l := by
  induction l with
  | nil => exact List.Perm.refl _
  | cons t ts ih =>
    exact (insertTsDesc_perm t (sortTsDesc ts)).trans (ih.cons t)

lemma sorted_insertTsDesc (t : Txn) (l : List Txn)
    (hl : l.Pairwise (fun a b => b.timestamp ≤ a.timestamp)) :
    (insertTsDesc t l).Pairwise (fun a b => b.timestamp ≤ a.timestamp) := by
  induction l with
  | nil => simp [insertTsDesc]
  | cons u us ih =>
    rcases List.pairwise_cons.mp hl with ⟨hu, hus⟩
    by_cases h : u.timestamp ≤ t.timestamp
    · rw [insertTsDesc, if_pos h]
      refine List.pairwise_cons.mpr ⟨?_, hl⟩
      intro z hz
      rcases List.mem_cons.mp hz with rfl | hz
      · exact h
      · exact le_trans (hu z hz) h
    · rw [insertTsDesc, if_neg h]
      refine List.pairwise_cons.mpr ⟨?_, ih hus⟩
      intro z hz
      rcases (mem_insertTsDesc t us z).mp hz with rfl | hz
      · exact le_of_not_le h
      · exact hu z hz

lemma sorted_sortTsDesc (l : List Txn) :
    (sortTsDesc l).Pairwise (fun a b => b.timestamp ≤ a.timestamp) := by
  induction l with
  | nil => exact List.Pairwise.nil
  | cons t ts ih => exact sorted_insertTsDesc t (sortTsDesc ts) ih

lemma pairwise_tie_insertTsDesc (S : Txn → Txn → Prop) (t : Txn) (l : List Txn)
    (ht : ∀ y ∈ l, t.timestamp = y.timestamp → S t y)
    (hl : l.Pairwise (fun a b => a.timestamp = b.timestamp → S a b)) :
    (insertTsDesc t l).Pairwise (fun a b => a.timestamp = b.timestamp → S a b) := by
  induction l with
  | nil => simp [insertTsDesc]
  | cons u us ih =>
    rcases List.pairwise_cons.mp hl with ⟨hu, hus⟩
    by_cases h : u.timestamp ≤ t.timestamp
    · rw [insertTsDesc, if_pos h]
      exact List.pairwise_cons.mpr ⟨fun z hz => ht z hz, hl⟩
    · rw [insertTsDesc, if_neg h]
      refine List.pairwise_cons.mpr ⟨?_, ?_⟩
      · intro z hz
        rcases (mem_insertTsDesc t us z).mp hz with rfl | hz
        · intro heq
          exact absurd (le_of_eq heq) h
        · exact hu z hz
      · exact ih (fun y hy => ht y (List.mem_cons_of_mem u hy)) hus

lemma pairwise_tie_sortTsDesc (S : Txn → Txn → Prop) (l : List Txn)
    (hl : l.Pairwise (fun a b => a.timestamp = b.timestamp → S a b)) :
    (sortTsDesc l).Pairwise (fun a b => a.timestamp = b.timestamp → S a b) := by
  induction l with
  | nil => exact List.Pairwise.nil
  | cons t ts ih =>
    rcases List.pairwise_cons.mp hl with ⟨ht, hts⟩
    refine pairwise_tie_insertTsDesc S t (sortTsDesc ts) ?_ (ih hts)
    intro y hy heq
    exact ht y ((sortTsDesc_perm ts).mem_iff.mp hy) heq

lemma pairwise_of_forall_left (S : Txn → Txn → Prop) (l : List Txn)
    (h : ∀ a ∈ l, ∀ b, S a b) : l.Pairwise S := by
  induction l with
  | nil => exact List.Pairwise.nil
  | cons x xs ih =>
    refine List.pairwise_cons.mpr ⟨fun b _ => h x (List.mem_cons_self x xs) b, ?_⟩
    exact ih (fun a ha b => h a (List.mem_cons_of_mem x ha) b)

lemma pairwise_of_forall_right (S : Txn → Txn → Prop) (l : List Txn)
    (h : ∀ b ∈ l, ∀ a, S a b) : l.Pairwise S := by
  induction l with
  | nil => exact List.Pairwise.nil
  | cons x xs ih =>
    refine List.pairwise_cons.mpr ⟨fun b hb => h b (List.mem_cons_of_mem x hb) x, ?_⟩
    exact ih (fun b hb a => h b (List.mem_cons_of_mem x hb) a)

lemma filter_disjoint_append_perm (p q r : Txn → Bool) :
    ∀ l : List Txn,
      (∀ x ∈ l, ((p x || q x) = r x ∧ ¬(p x = true ∧ q x = true))) →
      (l.filter p ++ l.filter q).Perm (l.filter r) := by
  intro l
  induction l with
  | nil => intro _; exact List.Perm.refl _
  | cons x xs ih =>
    intro h
    have hx := h x (List.mem_cons_self x xs)
    have hxs := ih (fun y hy => h y (List.mem_cons_of_mem x hy))
    cases hp : p x with
    | true =>
      have hq : q x = false := by
        cases hqv : q x
        · rfl
        · exact absurd ⟨hp, hqv⟩ hx.2
      have hr : r x = true := by rw [← hx.1, hp]; rfl
      simp only [List.filter_cons, hp, hq, hr, if_true, Bool.false_eq_true,
        if_false, List.cons_append]
      exact hxs.cons x
    | false =>
      cases hq : q x with
      | true =>
        have hr : r x = true := by rw [← hx.1, hp, hq]; rfl
        simp only [List.filter_cons, hp, hq, hr, if_true, Bool.false_eq_true,
          if_false]
        exact List.perm_middle.trans (hxs.cons x)
      | false =>
        have hr : r x = false := by rw [← hx.1, hp, hq]; rfl
        simp only [List.filter_cons, hp, hq, hr, Bool.false_eq_true, if_false]
        exact hxs

lemma filter_ts_insertTsDesc (τ : Nat) (t : Txn) (m : List Txn) :
    (insertTsDesc t m).filter (fun u => u.timestamp == τ) =
      if t.timestamp = τ then t :: m.filter (fun u => u.timestamp == τ)
      else m.filter (fun u => u.timestamp == τ) := by
  induction m with
  | nil =>
    by_cases hτ : t.timestamp = τ
    · rw [if_pos hτ]
      simp only [insertTsDesc, List.filter_cons, beq_iff_eq.mpr hτ, if_true,
        List.filter_nil]
    · rw [if_neg hτ]
      simp only [insertTsDesc, List.filter_cons, beq_eq_false_iff_ne.mpr hτ,
        Bool.false_eq_true, if_false, List.filter_nil]
  | cons u us ih =>
    by_cases h : u.timestamp ≤ t.timestamp
    · rw [insertTsDesc, if_pos h]
      by_cases hτ : t.timestamp = τ
      · rw [if_pos hτ, List.filter_cons, if_pos (beq_iff_eq.mpr hτ)]
      · rw [if_neg hτ, List.filter_cons,
          if_neg (by rw [beq_eq_false_iff_ne.mpr hτ]; exact Bool.false_ne_true)]
    · rw [insertTsDesc, if_neg h, List.filter_cons]
      by_cases hτ : t.timestamp = τ
      · have huτ : ¬ u.timestamp = τ := by
          intro he
          exact h (le_of_eq (he.trans hτ.symm))
        rw [if_neg (by rw [beq_eq_false_iff_ne.mpr huτ]; exact Bool.false_ne_true),
          ih, if_pos hτ, if_pos hτ, List.filter_cons,
          if_neg (by rw [beq_eq_false_iff_ne.mpr huτ]; exact Bool.false_ne_true)]
      · rw [ih, if_neg hτ, if_neg hτ, List.filter_cons]

lemma filter_ts_sortTsDesc (τ : Nat) (l : List Txn) :
    (sortTsDesc l).filter (fun u => u.timestamp == τ) =
      l.filter (fun u => u.timestamp == τ) := by
  induction l with
  | nil => rfl
  | cons t ts ih =>
    rw [show sortTsDesc (t :: ts) = insertTsDesc t (sortTsDesc ts) from rfl,
      filter_ts_insertTsDesc, List.filter_cons]
    by_cases hτ : t.timestamp = τ
    · rw [if_pos hτ, if_pos (beq_iff_eq.mpr hτ), ih]
    · rw [if_neg hτ,
        if_neg (by rw [beq_eq_false_iff_ne.mpr hτ]; exact Bool.false_ne_true)]
      exact ih

/-- C6 counterexample: with a withdrawal inserted before a deposit at the
same timestamp, `Bank.transaction_details` returns the deposit first, while
the insertion-order-stable history the claim describes returns the withdrawal
first: at equal timestamps the code puts deposits before withdrawals. -/
theorem transaction_details_not_insertion_order :
    Bank.transaction_details
        ⟨[⟨"A", "Alice", 120⟩], [⟨"A", "Withdrawn", 30, 5⟩, ⟨"A", "Deposited", 50, 5⟩], 9⟩
        "A" =
      .ok [⟨"A", "Deposited", 50, 5⟩, ⟨"A", "Withdrawn", 30, 5⟩] ∧
    historyInsertionStable
        ⟨[⟨"A", "Alice", 120⟩], [⟨"A", "Withdrawn", 30, 5⟩, ⟨"A", "Deposited", 50, 5⟩], 9⟩
        "A" =
      [⟨"A", "Withdrawn", 30, 5⟩, ⟨"A", "Deposited", 50, 5⟩] ∧
    Bank.transaction_details
        ⟨[⟨"A", "Alice", 120⟩], [⟨"A", "Withdrawn", 30, 5⟩, ⟨"A", "Deposited", 50, 5⟩], 9⟩
        "A" ≠
      .ok (historyInsertionStable
        ⟨[⟨"A", "Alice", 120⟩], [⟨"A", "Withdrawn", 30, 5⟩, ⟨"A", "Deposited", 50, 5⟩], 9⟩
        "A") := by
  refine ⟨rfl, rfl, ?_⟩
  intro h
  rw [show historyInsertionStable
      ⟨[⟨"A", "Alice", 120⟩], [⟨"A", "Withdrawn", 30, 5⟩, ⟨"A", "Deposited", 50, 5⟩], 9⟩
      "A" = [⟨"A", "Withdrawn", 30, 5⟩, ⟨"A", "Deposited", 50, 5⟩] from rfl] at h
  have h2 : ([⟨"A", "Deposited", 50, 5⟩, ⟨"A", "Withdrawn", 30, 5⟩] : List Txn) =
      [⟨"A", "Withdrawn", 30, 5⟩, ⟨"A", "Deposited", 50, 5⟩] := by
    have h1 : Bank.transaction_details
        ⟨[⟨"A", "Alice", 120⟩], [⟨"A", "Withdrawn", 30, 5⟩, ⟨"A", "Deposited", 50, 5⟩], 9⟩
        "A" = .ok [⟨"A", "Deposited", 50, 5⟩, ⟨"A", "Withdrawn", 30, 5⟩] := rfl
    injection h1.symm.trans h
  have h3 : ("Deposited" : String) = "Withdrawn" := congrArg Txn.transactionDesc
    (List.head_eq_of_cons_eq h2)
  exact absurd h3 (by decide)

/-- C6 (amended): when `Bank.transaction_details` returns a row list and every
logged description is "Deposited" or "Withdrawn" (the only ones the code
writes), the list is a permutation of the account's transactions, sorted by
timestamp descending; at equal timestamps all deposits come before all
withdrawals, each group preserving insertion order — the stable order of the
deposits-then-withdrawals concatenation, not global insertion order.  The
last conjunct states the tie-break exactly: restricting the output to any
one timestamp yields the account's "Deposited" rows at that timestamp in
log (insertion) order followed by its "Withdrawn" rows in log order. -/
theorem transaction_details_sorted_deposits_first (st : BankState)
    (an : String) (l : List Txn)
    (hdesc : ∀ t ∈ st.transactions,
      t.transactionDesc = "Deposited" ∨ t.transactionDesc = "Withdrawn")
    (h : Bank.transaction_details st an = .ok l) :
    l.Perm (st.transactions.filter (fun t => t.accountNumber == an)) ∧
    l.Pairwise (fun a b => b.timestamp ≤ a.timestamp) ∧
    l.Pairwise (fun a b => a.timestamp = b.timestamp →
      ¬(a.transactionDesc = "Withdrawn" ∧ b.transactionDesc = "Deposited")) ∧
    (∀ τ : Nat, l.filter (fun t => t.timestamp == τ) =
      st.transactions.filter (fun t => (t.timestamp == τ) &&
        (t.accountNumber == an && t.transactionDesc == "Deposited")) ++
      st.transactions.filter (fun t => (t.timestamp == τ) &&
        (t.accountNumber == an && t.transactionDesc == "Withdrawn"))) := by
  unfold Bank.transaction_details at h
  by_cases hex : account_exists st an
  · rw [if_neg (by simpa using hex)] at h
    simp only at h
    split at h
    · injection h with h
      subst h
      constructor
      · refine (sortTsDesc_perm _).trans ?_
        refine (((sortTsDesc_perm _).append (sortTsDesc_perm _))).trans ?_
        refine filter_disjoint_append_perm _ _ _ st.transactions ?_
        intro x hx
        rcases hdesc x hx with hd | hd
        · rw [hd]
          constructor
          · show (x.accountNumber == an && ("Deposited" == "Deposited") ||
              x.accountNumber == an && ("Deposited" == "Withdrawn")) =
              (x.accountNumber == an)
            rw [show (("Deposited" : String) == "Deposited") = true from rfl,
              show (("Deposited" : String) == "Withdrawn") = false by decide]
            cases x.accountNumber == an <;> rfl
          · rintro ⟨-, h2⟩
            simp only [Bool.and_eq_true] at h2
            exact absurd (eq_of_beq h2.2) (by decide)
        · rw [hd]
          constructor
          · show (x.accountNumber == an && ("Withdrawn" == "Deposited") ||
              x.accountNumber == an && ("Withdrawn" == "Withdrawn")) =
              (x.accountNumber == an)
            rw [show (("Withdrawn" : String) == "Withdrawn") = true from rfl,
              show (("Withdrawn" : String) == "Deposited") = false by decide]
            cases x.accountNumber == an <;> rfl
          · rintro ⟨h1, -⟩
            simp only [Bool.and_eq_true] at h1
            exact absurd (eq_of_beq h1.2) (by decide)
      refine ⟨sorted_sortTsDesc _, ?_, ?_⟩
      · refine pairwise_tie_sortTsDesc _ _ ?_
        have hdep : ∀ a ∈ sortTsDesc (st.transactions.filter
            (fun t => t.accountNumber == an && t.transactionDesc == "Deposited")),
            a.transactionDesc = "Deposited" := by
          intro a ha
          have := (List.mem_filter.mp ((sortTsDesc_perm _).mem_iff.mp ha)).2
          simp only [Bool.and_eq_true] at this
          exact eq_of_beq this.2
        have hwd : ∀ b ∈ sortTsDesc (st.transactions.filter
            (fun t => t.accountNumber == an && t.transactionDesc == "Withdrawn")),
            b.transactionDesc = "Withdrawn" := by
          intro b hb
          have := (List.mem_filter.mp ((sortTsDesc_perm _).mem_iff.mp hb)).2
          simp only [Bool.and_eq_true] at this
          exact eq_of_beq this.2
        refine List.Pairwise.imp (fun hs => fun _ => hs) ?_
        refine List.pairwise_append.mpr ⟨?_, ?_, ?_⟩
        · refine pairwise_of_forall_left _ _ ?_
          intro a ha b
          rintro ⟨ha2, -⟩
          rw [hdep a ha] at ha2
          exact absurd ha2 (by decide)
        · refine pairwise_of_forall_right _ _ ?_
          intro b hb a
          rintro ⟨-, hb2⟩
          rw [hwd b hb] at hb2
          exact absurd hb2 (by decide)
        · intro a ha b hb
          rintro ⟨ha2, -⟩
          rw [hdep a ha] at ha2
          exact absurd ha2 (by decide)
      · intro τ
        rw [filter_ts_sortTsDesc, List.filter_append, filter_ts_sortTsDesc,
          filter_ts_sortTsDesc, List.filter_filter, List.filter_filter]
    · exact absurd h (by simp)
  · rw [if_pos (by simpa using hex)] at h
    exact absurd h (by simp)

/-- Witness for C6's amended theorem at a concrete two-transaction state. -/
theorem transaction_details_sorted_deposits_first_witness :
    ([⟨"A", "Deposited", 50, 5⟩, ⟨"A", "Withdrawn", 30, 5⟩] : List Txn).Perm
      (([⟨"A", "Withdrawn", 30, 5⟩, ⟨"A", "Deposited", 50, 5⟩] : List Txn).filter
        (fun t => t.accountNumber == "A")) ∧
    ([⟨"A", "Deposited", 50, 5⟩, ⟨"A", "Withdrawn", 30, 5⟩] : List Txn).Pairwise
      (fun a b => b.timestamp ≤ a.timestamp) ∧
    ([⟨"A", "Deposited", 50, 5⟩, ⟨"A", "Withdrawn", 30, 5⟩] : List Txn).Pairwise
      (fun a b => a.timestamp = b.timestamp →
        ¬(a.transactionDesc = "Withdrawn" ∧ b.transactionDesc = "Deposited")) ∧
    ([⟨"A", "Deposited", 50, 5⟩, ⟨"A", "Withdrawn", 30, 5⟩] : List Txn).filter
        (fun t => t.timestamp == 5) =
      ([⟨"A", "Withdrawn", 30, 5⟩, ⟨"A", "Deposited", 50, 5⟩] : List Txn).filter
        (fun t => (t.timestamp == 5) &&
          (t.accountNumber == "A" && t.transactionDesc == "Deposited")) ++
      ([⟨"A", "Withdrawn", 30, 5⟩, ⟨"A", "Deposited", 50, 5⟩] : List Txn).filter
        (fun t => (t.timestamp == 5) &&
          (t.accountNumber == "A" && t.transactionDesc == "Withdrawn")) := by
  have h := transaction_details_sorted_deposits_first
    ⟨[⟨"A", "Alice", 120⟩], [⟨"A", "Withdrawn", 30, 5⟩, ⟨"A", "Deposited", 50, 5⟩], 9⟩
    "A" [⟨"A", "Deposited", 50, 5⟩, ⟨"A", "Withdrawn", 30, 5⟩]
    (by decide)
    rfl
  exact ⟨h.1, h.2.1, h.2.2.1, h.2.2.2 5⟩

/-- C7 counterexample: for an existing account with zero transactions,
`Bank.transaction_details` does not return an empty sequence; it reports the
"No transactions found for this account." warning (a `None` return in the
source). -/
theorem empty_history_not_empty_sequence :
    Bank.transaction_details ⟨[⟨"A", "Alice", 0⟩], [], 0⟩ "A" ≠ .ok [] ∧
    Bank.transaction_details ⟨[⟨"A", "Alice", 0⟩], [], 0⟩ "A" =
      .error .noTransactionsFound := by
  refine ⟨?_, rfl⟩
  intro h
  exact Except.noConfusion (show (Except.error HistError.noTransactionsFound :
    Except HistError (List Txn)) = .ok [] from h)

/-- C7 (amended): for every existing account with zero transactions,
`Bank.transaction_details` reports a distinct "no transactions found" warning
rather than returning an empty sequence, and that outcome is distinguishable
from the AccountNotFound error used when the account does not exist. -/
theorem empty_history_distinct_warning (st : BankState) (an : String)
    (hex : account_exists st an = true)
    (hempty : st.transactions.filter (fun t => t.accountNumber == an) = []) :
    Bank.transaction_details st an = .error .noTransactionsFound ∧
    (HistError.noTransactionsFound ≠ HistError.accountNotFound) := by
  refine ⟨?_, fun h => HistError.noConfusion h⟩
  unfold Bank.transaction_details
  rw [if_neg (by simpa using hex)]
  have hsub : ∀ d : String,
      st.transactions.filter
        (fun t => t.accountNumber == an && t.transactionDesc == d) = [] := by
    intro d
    rw [List.filter_eq_nil_iff]
    intro x hx hcontra
    simp only [Bool.and_eq_true] at hcontra
    exact (List.filter_eq_nil_iff.mp hempty) x hx hcontra.1
  simp only [hsub "Deposited", hsub "Withdrawn"]
  rfl

/-- Witness for C7's amended theorem at a concrete transactionless account. -/
theorem empty_history_distinct_warning_witness :
    Bank.transaction_details ⟨[⟨"B", "Bob", 10⟩], [], 2⟩ "B" =
      .error .noTransactionsFound ∧
    (HistError.noTransactionsFound ≠ HistError.accountNotFound) :=
  empty_history_distinct_warning ⟨[⟨"B", "Bob", 10⟩], [], 2⟩ "B" rfl rfl

end BankingApp
